import Mathlib

/-!
# Verification of `app_gsheets.py` (pointApp)

Shallow embedding of the data-handling core of `src/app_gsheets.py`:

* worksheets are modelled as lists of rows of string cells (the header row of
  `LogActivity` is dropped, matching `col_values(1)[1:]` in the source);
* `datetime.date` values are `CalDate` records; Python `str(date)` is the
  zero-padded ISO serialisation `isoString`; `pd.to_datetime(...).dt.date` on
  such strings is `parseIsoDate`;
* `pd.to_numeric(x, errors='coerce')` on an integer-shaped string is
  `pyToNumeric` (returns `none` for malformed values, matching NaN);
* Python `str.isdigit` is `pyIsdigit` (true iff non-empty and all decimal
  digits);
* `load_data`, `add_log_entry`, `update_recap` and the Submit-Log handler are
  embedded as pure functions; the writes `update_recap` performs on the
  `RecapPoint` worksheet are reified as an explicit list of `RecapWrite`
  operations so that "performs zero writes" is directly expressible.
-/

namespace PointApp

/-- A calendar date, as carried by Python `datetime.date` values. -/
structure CalDate where
  year : Nat
  month : Nat
  day : Nat
deriving DecidableEq, Repr

/-- Python date comparison: lexicographic on (year, month, day).  This is the
order `pandas.groupby` sorts `datetime.date` keys by. -/
def dateLe (a b : CalDate) : Prop :=
  a.year < b.year ∨ (a.year = b.year ∧
    (a.month < b.month ∨ (a.month = b.month ∧ a.day ≤ b.day)))

/-- Strict lexicographic date order. -/
def dateLt (a b : CalDate) : Prop :=
  a.year < b.year ∨ (a.year = b.year ∧
    (a.month < b.month ∨ (a.month = b.month ∧ a.day < b.day)))

instance : DecidableRel dateLe := fun a b => by unfold dateLe; infer_instance

instance : DecidableRel dateLt := fun a b => by unfold dateLt; infer_instance

instance : IsTotal CalDate dateLe := ⟨by intro a b; unfold dateLe; omega⟩

instance : IsTrans CalDate dateLe := ⟨by intro a b c; unfold dateLe; omega⟩

theorem dateLe_antisymm {a b : CalDate} (h1 : dateLe a b) (h2 : dateLe b a) :
    a = b := by
  unfold dateLe at h1 h2
  have hy : a.year = b.year := by omega
  have hm : a.month = b.month := by omega
  have hd : a.day = b.day := by omega
  cases a; cases b; simp_all

theorem dateLt_of_dateLe_of_ne {a b : CalDate} (h1 : dateLe a b) (h2 : a ≠ b) :
    dateLt a b := by
  obtain ⟨ya, ma, da⟩ := a
  obtain ⟨yb, mb, db⟩ := b
  unfold dateLe at h1
  unfold dateLt
  simp only [ne_eq, CalDate.mk.injEq, not_and] at h2
  simp only at h1 ⊢
  omega

/-! ## Decimal printing and parsing of numbers (Python `str` / `int` /
`pd.to_numeric`) -/

/-- The ASCII character of a decimal digit. -/
def digitChar (d : Nat) : Char := Char.ofNat (48 + d)

/-- Numeric value of an ASCII digit character. -/
def charVal (c : Char) : Nat := c.toNat - 48

/-- Big-endian decimal digits of `n` (empty for `n = 0`); structural in the
fuel so that it evaluates by `decide`. -/
def natCharsAux : Nat → Nat → List Char
  | 0, _ => []
  | fuel + 1, n => if n = 0 then [] else natCharsAux fuel (n / 10) ++ [digitChar (n % 10)]

/-- Decimal rendering of a natural number, as Python `str` produces it. -/
def natChars (n : Nat) : List Char := if n = 0 then ['0'] else natCharsAux n n

/-- Decimal rendering of an integer, as Python `str` produces it. -/
def intChars (i : Int) : List Char :=
  if i < 0 then '-' :: natChars i.natAbs else natChars i.toNat

/-- Python `str(n)` for a natural number, as a string cell. -/
def natStr (n : Nat) : String := ⟨natChars n⟩

/-- Python `str(i)` for an integer, as a string cell. -/
def intStr (i : Int) : String := ⟨intChars i⟩

/-- Parse a non-empty all-digit character list as a natural number; `none`
otherwise.  This is `int(x)` restricted to the strings `x.isdigit()` accepts,
and the integer part of `pd.to_numeric`. -/
def parseNatChars (l : List Char) : Option Nat :=
  if l.isEmpty then none
  else if l.all Char.isDigit then
    some (l.foldl (fun a c => a * 10 + charVal c) 0)
  else none

/-- `pd.to_numeric(x, errors='coerce')` on an integer-shaped string: an
optional leading minus sign followed by digits; `none` models NaN. -/
def pyToNumeric (s : String) : Option Int :=
  match s.data with
  | [] => none
  | c :: rest =>
    if c = '-' then (parseNatChars rest).map (fun n => -(n : Int))
    else (parseNatChars (c :: rest)).map (fun n => (n : Int))

/-- Python `str.isdigit` (restricted to ASCII content): non-empty and every
character a decimal digit. -/
def pyIsdigit (s : String) : Bool := !s.data.isEmpty && s.data.all Char.isDigit

/-! ## ISO date serialisation and parsing -/

/-- Left-pad with `'0'` to width `w`: Python's fixed-width date fields. -/
def padChars (w : Nat) (l : List Char) : List Char :=
  List.replicate (w - l.length) '0' ++ l

/-- Python `str(date)`: `YYYY-MM-DD`, zero padded. -/
def isoString (d : CalDate) : String :=
  ⟨padChars 4 (natChars d.year) ++ '-' :: (padChars 2 (natChars d.month) ++ '-' :: padChars 2 (natChars d.day))⟩

/-- Split a character list on `'-'`. -/
def splitDash : List Char → List (List Char)
  | [] => [[]]
  | c :: rest =>
    if c = '-' then [] :: splitDash rest
    else
      match splitDash rest with
      | [] => [[c]]
      | g :: gs => (c :: g) :: gs

/-- `pd.to_datetime(s).dt.date` on the strings this app writes: parse
`YYYY-MM-DD` into a `CalDate`, `none` when the string is not a date. -/
def parseIsoDate (s : String) : Option CalDate :=
  match splitDash s.data with
  | [ys, ms, ds] =>
    match parseNatChars ys, parseNatChars ms, parseNatChars ds with
    | some y, some m, some d =>
      if 1 ≤ y ∧ y ≤ 9999 ∧ 1 ≤ m ∧ m ≤ 12 ∧ 1 ≤ d ∧ d ≤ 31 then
        some ⟨y, m, d⟩
      else none
    | _, _, _ => none
  | _ => none

/-! ## Worksheet model -/

/-- A data row of the `LogActivity` worksheet (header excluded), raw string
cells in column order `No, Date, Activity, Point, Approval`. -/
structure RawRow where
  no : String
  date : String
  activity : String
  point : String
  approval : String
deriving DecidableEq, Repr

/-- The spreadsheet: the three worksheets the app reads and writes.
`listActivity` is the `ListActivity` catalog (`Activity`, `Points` columns,
already record-shaped as `get_all_records` returns them); `logActivity` holds
the data rows of `LogActivity`; `recapPoint` holds the raw cell grid of
`RecapPoint`. -/
structure Sheet where
  listActivity : List (String × Int)
  logActivity : List RawRow
  recapPoint : List (List String)
deriving DecidableEq, Repr

/-- A row of the typed log dataframe `df_log` produced by `load_data`:
`No` coerced with `pd.to_numeric(errors='coerce')` (NaN = `none`), `Date`
parsed to a calendar date, `Point` coerced with NaN filled by 0. -/
structure LoadedEntry where
  no : Option Int
  date : CalDate
  activity : String
  points : Int
  approval : String
deriving DecidableEq, Repr

/-- The typed log entry a raw row coerces to, given its parsed date. -/
def coerceRow (r : RawRow) (d : CalDate) : LoadedEntry :=
  { no := pyToNumeric r.no
    date := d
    activity := r.activity
    points := (pyToNumeric r.point).getD 0
    approval := r.approval }

/-- Type coercion of the whole log dataframe (lines 43-47 of the source):
`pd.to_datetime(df_log['Date'])` raises on the first unparseable date, which
aborts the whole `load_data` call, hence `Option`; `Point` coercion never
raises (`errors='coerce'` + `fillna(0)`). -/
def coerceLog : List RawRow → Option (List LoadedEntry)
  | [] => some []
  | r :: rest =>
    match parseIsoDate r.date, coerceLog rest with
    | some d, some es => some (coerceRow r d :: es)
    | _, _ => none

/-- Result of `load_data`: on any exception the source shows an error and
returns two empty dataframes. -/
structure LoadOutput where
  errored : Bool
  catalog : List (String × Int)
  log : List LoadedEntry
deriving DecidableEq, Repr

/-- `load_data(sheet)` (source lines 30-52): read both worksheets, coerce the
log's types; any failure (here: an unparseable date) is caught and turned
into an error message plus empty catalog and empty log. -/
def load_data (s : Sheet) : LoadOutput :=
  match coerceLog s.logActivity with
  | some es => { errored := false, catalog := s.listActivity, log := es }
  | none => { errored := true, catalog := [], log := [] }

/-! ## `add_log_entry` -/

/-- `[int(x) for x in col_values(1)[1:] if x.isdigit()]` (source line 57):
the parseable ids of the stored id column (our `logActivity` has the header
row already stripped). -/
def logIds (rows : List RawRow) : List Nat :=
  ((rows.map RawRow.no).filter pyIsdigit).filterMap (fun s => parseNatChars s.data)

/-- `max(ids) + 1 if ids else 1` (source line 58). -/
def new_log_id (rows : List RawRow) : Nat :=
  if logIds rows = [] then 1 else (logIds rows).foldl Nat.max 0 + 1

/-- `add_log_entry(sheet, date_val, activity, point, approval)` (source lines
54-62): compute the fresh id, append the serialised row to `LogActivity`, and
return `True`. -/
def add_log_entry (s : Sheet) (date_val : CalDate) (activity : String)
    (point : Int) (approval : String) : Sheet × Bool :=
  let new_id := new_log_id s.logActivity
  let row : RawRow :=
    { no := natStr new_id, date := isoString date_val, activity := activity
      point := intStr point, approval := approval }
  ({ s with logActivity := s.logActivity ++ [row] }, true)

/-- Python `True` compared as a number (`True == 1`). -/
def pyBoolAsInt (b : Bool) : Nat := if b then 1 else 0

/-! ## `update_recap` -/

/-- A row of the recomputed recap table: columns `No`, `Date`, `Rekap Point`. -/
structure RecapRow where
  no : Nat
  date : CalDate
  rekapPoint : Int
deriving DecidableEq, Repr

/-- Sum of `Point` over the log entries with the given date: one group of
`df_log.groupby('Date')['Point'].sum()`. -/
def sumPointsOn (log : List LoadedEntry) (d : CalDate) : Int :=
  ((log.filter (fun e => e.date = d)).map LoadedEntry.points).sum

/-- The distinct dates of the log, sorted ascending: the index produced by
`groupby('Date')` (pandas sorts group keys ascending). -/
def recapDates (log : List LoadedEntry) : List CalDate :=
  List.insertionSort dateLe (log.map LoadedEntry.date).dedup

/-- `recap.insert(0, 'No', range(1, len(recap) + 1))`: number rows from `k`. -/
def numberRowsFrom (k : Nat) : List (CalDate × Int) → List RecapRow
  | [] => []
  | (d, t) :: rest => ⟨k, d, t⟩ :: numberRowsFrom (k + 1) rest

/-- The recap dataframe `update_recap` computes from a (non-empty) log
(source lines 68-71): group by date, sum points, number rows 1..N. -/
def update_recap_rows (log : List LoadedEntry) : List RecapRow :=
  numberRowsFrom 1 ((recapDates log).map (fun d => (d, sumPointsOn log d)))

/-- `[recap.columns.tolist()] + recap.values.tolist()` with `Date` cast to
`str` (source lines 73-77): the cell grid uploaded to `RecapPoint`. -/
def serializeRecap (rows : List RecapRow) : List (List String) :=
  ["No", "Date", "Rekap Point"] ::
    rows.map (fun r => [natStr r.no, isoString r.date, intStr r.rekapPoint])

/-- A write operation issued against the `RecapPoint` worksheet. -/
inductive RecapWrite where
  | clear : RecapWrite
  | update (data : List (List String)) : RecapWrite
deriving DecidableEq, Repr

/-- The writes `update_recap(sheet, df_log)` performs (source lines 64-78):
nothing when the log dataframe is empty, otherwise `clear` followed by
uploading the recomputed table. -/
def update_recap_writes (df_log : List LoadedEntry) : List RecapWrite :=
  if df_log.isEmpty then []
  else [RecapWrite.clear, RecapWrite.update (serializeRecap (update_recap_rows df_log))]

/-- Effect of a single write on the stored `RecapPoint` cell grid. -/
def applyRecapWrite (_t : List (List String)) : RecapWrite → List (List String)
  | RecapWrite.clear => []
  | RecapWrite.update data => data

/-- Effect of a write sequence on the stored `RecapPoint` cell grid. -/
def applyRecapWrites (ws : List RecapWrite) (t : List (List String)) :
    List (List String) :=
  ws.foldl applyRecapWrite t

/-- `update_recap` as a state transformer on the spreadsheet: apply its
writes to the `RecapPoint` worksheet. -/
def update_recap (s : Sheet) (df_log : List LoadedEntry) : Sheet :=
  { s with recapPoint := applyRecapWrites (update_recap_writes df_log) s.recapPoint }

/-! ## Submit-Log handler -/

/-- The body of the `Submit Log` button handler (source lines 122-132):
append the entry remotely, append a locally synthesized row with the
placeholder id `999` to the in-memory `df_log`, then recompute the recap
from that local dataframe.  Returns the new spreadsheet state and the new
local dataframe. -/
def submit_log (s : Sheet) (df_log : List LoadedEntry) (sel_date : CalDate)
    (sel_activity : String) (points : Int) (sel_approval : String) :
    Sheet × List LoadedEntry :=
  let s1 := (add_log_entry s sel_date sel_activity points sel_approval).1
  let new_row : LoadedEntry :=
    { no := some 999, date := sel_date, activity := sel_activity
      points := points, approval := sel_approval }
  let df2 := df_log ++ [new_row]
  (update_recap s1 df2, df2)

/-! ## Lemmas: decimal printing and parsing -/

theorem charVal_digitChar {d : Nat} (h : d < 10) : charVal (digitChar d) = d := by
  interval_cases d <;> decide

theorem isDigit_digitChar {d : Nat} (h : d < 10) : (digitChar d).isDigit = true := by
  interval_cases d <;> decide

theorem ne_dash_of_isDigit {c : Char} (h : c.isDigit = true) : c ≠ '-' := by
  rintro rfl
  exact absurd h (by decide)

theorem natCharsAux_all_isDigit :
    ∀ fuel n, (natCharsAux fuel n).all Char.isDigit = true := by
  intro fuel
  induction fuel with
  | zero => intro n; rfl
  | succ fuel ih =>
    intro n
    by_cases h : n = 0
    · simp [natCharsAux, h]
    · simp only [natCharsAux, h, if_false, List.all_append, Bool.and_eq_true]
      exact ⟨ih _, by simp [isDigit_digitChar (Nat.mod_lt n (by norm_num))]⟩

theorem natCharsAux_foldl :
    ∀ fuel n, n ≤ fuel → ∀ a,
      (natCharsAux fuel n).foldl (fun a c => a * 10 + charVal c) a =
        a * 10 ^ (natCharsAux fuel n).length + n := by
  intro fuel
  induction fuel with
  | zero => intro n hn a; interval_cases n; simp [natCharsAux]
  | succ fuel ih =>
    intro n hn a
    by_cases h : n = 0
    · simp [natCharsAux, h]
    · have hdiv : n / 10 ≤ fuel := by omega
      simp only [natCharsAux, h, if_false, List.foldl_append, List.length_append,
        List.foldl_cons, List.foldl_nil, List.length_cons, List.length_nil]
      rw [ih _ hdiv a, charVal_digitChar (Nat.mod_lt n (by norm_num))]
      rw [pow_succ]
      have := Nat.div_add_mod n 10
      ring_nf
      omega

theorem natChars_all_isDigit (n : Nat) : (natChars n).all Char.isDigit = true := by
  by_cases h : n = 0
  · simp [natChars, h]
  · simp [natChars, h, natCharsAux_all_isDigit]

theorem isEmpty_eq_false_of_ne_nil {α : Type} {l : List α} (h : l ≠ []) :
    l.isEmpty = false := by
  cases l with
  | nil => exact absurd rfl h
  | cons a t => rfl

theorem natChars_ne_nil (n : Nat) : natChars n ≠ [] := by
  by_cases h : n = 0
  · simp [natChars, h]
  · have : natCharsAux n n ≠ [] := by
      match n, h with
      | n + 1, _ =>
        simp [natCharsAux]
    simp [natChars, h, this]

theorem parseNatChars_natChars (n : Nat) : parseNatChars (natChars n) = some n := by
  by_cases h : n = 0
  · subst h; rfl
  · simp only [parseNatChars, isEmpty_eq_false_of_ne_nil (natChars_ne_nil n),
      natChars_all_isDigit, if_true, if_false, Bool.false_eq_true]
    simp only [natChars, h, if_false]
    rw [natCharsAux_foldl n n (le_refl n) 0]
    simp

theorem foldl_zeros (k : Nat) :
    (List.replicate k '0').foldl (fun a c => a * 10 + charVal c) 0 = 0 := by
  induction k with
  | zero => rfl
  | succ k ih =>
    simp only [List.replicate_succ, List.foldl_cons]
    have h0 : 0 * 10 + charVal '0' = 0 := by decide
    rw [h0, ih]

theorem parseNatChars_padChars (w n : Nat) :
    parseNatChars (padChars w (natChars n)) = some n := by
  have hall : (padChars w (natChars n)).all Char.isDigit = true := by
    simp only [padChars, List.all_append, Bool.and_eq_true]
    refine ⟨?_, natChars_all_isDigit n⟩
    simp [List.all_eq_true]
  have hne : (padChars w (natChars n)).isEmpty = false := by
    apply isEmpty_eq_false_of_ne_nil
    intro hnil
    rw [padChars, List.append_eq_nil] at hnil
    exact natChars_ne_nil n hnil.2
  simp only [parseNatChars, hne, hall, if_true, if_false, Bool.false_eq_true]
  simp only [padChars, List.foldl_append, foldl_zeros]
  by_cases h : n = 0
  · subst h; rfl
  · simp only [natChars, h, if_false]
    rw [natCharsAux_foldl n n (le_refl n) 0]
    simp

theorem no_dash_of_all_isDigit {l : List Char} (h : l.all Char.isDigit = true) :
    ∀ c ∈ l, c ≠ '-' := by
  intro c hc
  exact ne_dash_of_isDigit (by rw [List.all_eq_true] at h; exact h c hc)

theorem no_dash_padChars_natChars (w n : Nat) :
    ∀ c ∈ padChars w (natChars n), c ≠ '-' := by
  intro c hc
  rw [padChars, List.mem_append] at hc
  cases hc with
  | inl h => rw [List.eq_of_mem_replicate h]; decide
  | inr h => exact no_dash_of_all_isDigit (natChars_all_isDigit n) c h

theorem splitDash_append_dash {a : List Char} (rest : List Char)
    (h : ∀ c ∈ a, c ≠ '-') : splitDash (a ++ '-' :: rest) = a :: splitDash rest := by
  induction a with
  | nil => simp [splitDash]
  | cons x a ih =>
    have hx : x ≠ '-' := h x (List.mem_cons_self x a)
    have ha : ∀ c ∈ a, c ≠ '-' := fun c hc => h c (List.mem_cons_of_mem x hc)
    simp only [List.cons_append, splitDash, hx, if_false, List.append_eq, ih ha]

theorem splitDash_all_no_dash {a : List Char} (h : ∀ c ∈ a, c ≠ '-') :
    splitDash a = [a] := by
  induction a with
  | nil => rfl
  | cons x a ih =>
    have hx : x ≠ '-' := h x (List.mem_cons_self x a)
    have ha : ∀ c ∈ a, c ≠ '-' := fun c hc => h c (List.mem_cons_of_mem x hc)
    simp only [splitDash, hx, if_false, ih ha]

/-- `pd.to_datetime(str(d)).dt.date` recovers a valid Python date `d`. -/
theorem parseIsoDate_isoString (d : CalDate)
    (hy1 : 1 ≤ d.year) (hy2 : d.year ≤ 9999)
    (hm1 : 1 ≤ d.month) (hm2 : d.month ≤ 12)
    (hd1 : 1 ≤ d.day) (hd2 : d.day ≤ 31) :
    parseIsoDate (isoString d) = some d := by
  have hsplit :
      splitDash (padChars 4 (natChars d.year) ++ '-' ::
        (padChars 2 (natChars d.month) ++ '-' :: padChars 2 (natChars d.day))) =
        [padChars 4 (natChars d.year), padChars 2 (natChars d.month),
          padChars 2 (natChars d.day)] := by
    rw [splitDash_append_dash _ (no_dash_padChars_natChars 4 d.year),
      splitDash_append_dash _ (no_dash_padChars_natChars 2 d.month),
      splitDash_all_no_dash (no_dash_padChars_natChars 2 d.day)]
  show parseIsoDate ⟨_⟩ = some d
  unfold parseIsoDate
  simp only [hsplit, parseNatChars_padChars]
  have hrange : 1 ≤ d.year ∧ d.year ≤ 9999 ∧ 1 ≤ d.month ∧ d.month ≤ 12 ∧
      1 ≤ d.day ∧ d.day ≤ 31 := ⟨hy1, hy2, hm1, hm2, hd1, hd2⟩
  rw [if_pos hrange]

/-- `pd.to_numeric(str(p))` recovers the integer `p`. -/
theorem pyToNumeric_intStr (p : Int) : pyToNumeric (intStr p) = some p := by
  by_cases hneg : p < 0
  · show pyToNumeric ⟨intChars p⟩ = some p
    simp only [intChars, hneg, if_true]
    show (parseNatChars (natChars p.natAbs)).map (fun n => -(n : Int)) = some p
    rw [parseNatChars_natChars]
    show some (-(p.natAbs : Int)) = some p
    rw [Int.ofNat_natAbs_of_nonpos (le_of_lt hneg), neg_neg]
  · show pyToNumeric ⟨intChars p⟩ = some p
    simp only [intChars, hneg, if_false]
    obtain ⟨c, rest, hcr⟩ : ∃ c rest, natChars p.toNat = c :: rest := by
      cases hnc : natChars p.toNat with
      | nil => exact absurd hnc (natChars_ne_nil _)
      | cons c rest => exact ⟨c, rest, rfl⟩
    have hcd : c ≠ '-' := by
      apply no_dash_of_all_isDigit (natChars_all_isDigit p.toNat)
      rw [hcr]
      exact List.mem_cons_self c rest
    show pyToNumeric ⟨natChars p.toNat⟩ = some p
    unfold pyToNumeric
    simp only [hcr, hcd, if_false]
    rw [← hcr, parseNatChars_natChars]
    show some ((p.toNat : Int)) = some p
    rw [Int.toNat_of_nonneg (not_lt.mp hneg)]

/-! ## Lemmas: log coercion -/

theorem coerceLog_append (xs ys : List RawRow) :
    coerceLog (xs ++ ys) =
      (coerceLog xs).bind (fun a => (coerceLog ys).map (fun b => a ++ b)) := by
  induction xs with
  | nil =>
    simp only [List.nil_append, coerceLog]
    cases h : coerceLog ys <;> simp [h]
  | cons r xs ih =>
    simp only [List.cons_append, coerceLog, List.append_eq]
    rw [ih]
    cases hp : parseIsoDate r.date with
    | none =>
      cases hx : coerceLog xs with
      | none => rfl
      | some a => cases hy : coerceLog ys <;> rfl
    | some d =>
      cases hx : coerceLog xs with
      | none => rfl
      | some a => cases hy : coerceLog ys <;> simp

theorem coerceLog_get {rows : List RawRow} {es : List LoadedEntry}
    (h : coerceLog rows = some es) :
    ∀ i r, rows.get? i = some r →
      ∃ d, parseIsoDate r.date = some d ∧ es.get? i = some (coerceRow r d) := by
  induction rows generalizing es with
  | nil => intro i r hir; simp at hir
  | cons r0 rows ih =>
    intro i r hir
    simp only [coerceLog] at h
    cases hp : parseIsoDate r0.date with
    | none => rw [hp] at h; exact absurd h (by simp)
    | some d0 =>
      rw [hp] at h
      cases hc : coerceLog rows with
      | none => rw [hc] at h; exact absurd h (by simp)
      | some es' =>
        rw [hc] at h
        simp only [Option.some.injEq] at h
        subst h
        cases i with
        | zero =>
          simp only [List.get?_cons_zero, Option.some.injEq] at hir
          subst hir
          exact ⟨d0, hp, rfl⟩
        | succ i =>
          simp only [List.get?_cons_succ] at hir ⊢
          exact ih hc i r hir

theorem coerceLog_none_of_bad {rows : List RawRow} {r : RawRow}
    (hmem : r ∈ rows) (hbad : parseIsoDate r.date = none) :
    coerceLog rows = none := by
  induction rows with
  | nil => simp at hmem
  | cons r0 rows ih =>
    rcases List.mem_cons.mp hmem with rfl | hmem'
    · simp [coerceLog, hbad]
    · simp only [coerceLog, ih hmem']
      cases parseIsoDate r0.date <;> rfl

/-! ## Lemmas: fresh-id computation -/

theorem le_foldl_max (l : List Nat) : ∀ a, a ≤ l.foldl Nat.max a := by
  induction l with
  | nil => intro a; exact le_refl a
  | cons x l ih =>
    intro a
    exact le_trans (Nat.le_max_left a x) (ih (Nat.max a x))

theorem mem_le_foldl_max (l : List Nat) : ∀ a, ∀ v ∈ l, v ≤ l.foldl Nat.max a := by
  induction l with
  | nil => intro a v hv; simp at hv
  | cons x l ih =>
    intro a v hv
    rcases List.mem_cons.mp hv with rfl | hv'
    · exact le_trans (Nat.le_max_right a v) (le_foldl_max l (Nat.max a v))
    · exact ih (Nat.max a x) v hv'

theorem foldl_max_mem (l : List Nat) : ∀ a, l.foldl Nat.max a = a ∨ l.foldl Nat.max a ∈ l := by
  induction l with
  | nil => intro a; exact Or.inl rfl
  | cons x l ih =>
    intro a
    simp only [List.foldl_cons]
    rcases ih (Nat.max a x) with h | h
    · rw [h]
      by_cases hax : a ≤ x
      · have hm : a.max x = x := by simp [Nat.max_def, hax]
        exact Or.inr (by rw [hm]; exact List.mem_cons_self x l)
      · have hm : a.max x = a := by simp [Nat.max_def, hax]
        exact Or.inl hm
    · exact Or.inr (List.mem_cons_of_mem x h)

theorem new_log_id_gt (rows : List RawRow) :
    ∀ v ∈ logIds rows, v < new_log_id rows := by
  intro v hv
  unfold new_log_id
  have hne : logIds rows ≠ [] := by
    intro h
    rw [h] at hv
    simp at hv
  rw [if_neg hne]
  have := mem_le_foldl_max (logIds rows) 0 v hv
  omega

theorem new_log_id_attained (rows : List RawRow) (hne : logIds rows ≠ []) :
    ∃ m ∈ logIds rows, new_log_id rows = m + 1 := by
  unfold new_log_id
  rw [if_neg hne]
  rcases foldl_max_mem (logIds rows) 0 with h | h
  · refine ⟨0, ?_, by rw [h]⟩
    obtain ⟨x, xs, hx⟩ : ∃ x xs, logIds rows = x :: xs := by
      cases hl : logIds rows with
      | nil => exact absurd hl hne
      | cons x xs => exact ⟨x, xs, rfl⟩
    have hx0 : x ≤ 0 := by
      have := mem_le_foldl_max (logIds rows) 0 x (by rw [hx]; exact List.mem_cons_self x xs)
      omega
    have : x = 0 := by omega
    rw [hx, ← this]
    exact List.mem_cons_self x xs
  · exact ⟨_, h, rfl⟩

/-! ## Lemmas: recap aggregation -/

theorem recapDates_nodup (log : List LoadedEntry) : (recapDates log).Nodup := by
  unfold recapDates
  exact ((List.perm_insertionSort dateLe _).nodup_iff).mpr (List.nodup_dedup _)

theorem mem_recapDates {log : List LoadedEntry} {d : CalDate} :
    d ∈ recapDates log ↔ ∃ e ∈ log, e.date = d := by
  unfold recapDates
  rw [(List.perm_insertionSort dateLe _).mem_iff, List.mem_dedup, List.mem_map]

theorem recapDates_sorted (log : List LoadedEntry) :
    (recapDates log).Pairwise dateLe :=
  List.sorted_insertionSort dateLe _

theorem recapDates_sorted_strict (log : List LoadedEntry) :
    (recapDates log).Pairwise dateLt := by
  have h1 := recapDates_sorted log
  have h2 := recapDates_nodup log
  exact (h1.and h2).imp (fun h => dateLt_of_dateLe_of_ne h.1 h.2)

theorem numberRowsFrom_map_no (l : List (CalDate × Int)) :
    ∀ k, (numberRowsFrom k l).map RecapRow.no = List.range' k l.length := by
  induction l with
  | nil => intro k; rfl
  | cons p l ih =>
    intro k
    obtain ⟨d, t⟩ := p
    simp only [numberRowsFrom, List.map_cons, List.length_cons, List.range'_succ, ih (k + 1)]

theorem numberRowsFrom_map_date (l : List (CalDate × Int)) :
    ∀ k, (numberRowsFrom k l).map RecapRow.date = l.map Prod.fst := by
  induction l with
  | nil => intro k; rfl
  | cons p l ih =>
    intro k
    obtain ⟨d, t⟩ := p
    simp only [numberRowsFrom, List.map_cons, ih (k + 1)]

theorem numberRowsFrom_map_rekap (l : List (CalDate × Int)) :
    ∀ k, (numberRowsFrom k l).map RecapRow.rekapPoint = l.map Prod.snd := by
  induction l with
  | nil => intro k; rfl
  | cons p l ih =>
    intro k
    obtain ⟨d, t⟩ := p
    simp only [numberRowsFrom, List.map_cons, ih (k + 1)]

theorem mem_numberRowsFrom {l : List (CalDate × Int)} {r : RecapRow} :
    ∀ {k}, r ∈ numberRowsFrom k l → (r.date, r.rekapPoint) ∈ l := by
  induction l with
  | nil => intro k h; simp [numberRowsFrom] at h
  | cons p l ih =>
    intro k h
    obtain ⟨d, t⟩ := p
    rcases List.mem_cons.mp h with rfl | h'
    · exact List.mem_cons_self _ _
    · exact List.mem_cons_of_mem _ (ih h')

theorem numberRowsFrom_length (l : List (CalDate × Int)) :
    ∀ k, (numberRowsFrom k l).length = l.length := by
  induction l with
  | nil => intro k; rfl
  | cons p l ih =>
    intro k
    obtain ⟨d, t⟩ := p
    simp only [numberRowsFrom, List.length_cons, ih (k + 1)]

/-! ## Lemmas: sum preservation -/

theorem sum_map_add (l : List CalDate) (f g : CalDate → Int) :
    (l.map (fun x => f x + g x)).sum = (l.map f).sum + (l.map g).sum := by
  induction l with
  | nil => simp
  | cons x l ih =>
    simp only [List.map_cons, List.sum_cons, ih]
    ring

theorem sum_ite_eq_of_mem {ds : List CalDate} (x : CalDate) (v : Int)
    (hnd : ds.Nodup) (hx : x ∈ ds) :
    (ds.map (fun d => if x = d then v else 0)).sum = v := by
  induction ds with
  | nil => simp at hx
  | cons d ds ih =>
    simp only [List.map_cons, List.sum_cons]
    rcases List.mem_cons.mp hx with rfl | hx'
    · rw [if_pos rfl]
      have hnotin : x ∉ ds := (List.nodup_cons.mp hnd).1
      have : (ds.map (fun d => if x = d then v else 0)).sum = 0 := by
        apply List.sum_eq_zero
        intro y hy
        rcases List.mem_map.mp hy with ⟨d', hd', rfl⟩
        rw [if_neg]
        rintro rfl
        exact hnotin hd'
      rw [this]
      ring
    · have hne : x ≠ d := by
        rintro rfl
        exact (List.nodup_cons.mp hnd).1 hx'
      rw [if_neg hne, ih (List.nodup_cons.mp hnd).2 hx']
      ring

theorem sumPointsOn_cons (e : LoadedEntry) (log : List LoadedEntry) (d : CalDate) :
    sumPointsOn (e :: log) d =
      (if e.date = d then e.points else 0) + sumPointsOn log d := by
  unfold sumPointsOn
  by_cases h : e.date = d
  · simp [List.filter_cons, h]
  · simp [List.filter_cons, h]

theorem sum_over_dates (log : List LoadedEntry) (ds : List CalDate)
    (hnd : ds.Nodup) (hcov : ∀ e ∈ log, e.date ∈ ds) :
    (ds.map (sumPointsOn log)).sum = (log.map LoadedEntry.points).sum := by
  induction log with
  | nil =>
    simp only [List.map_nil, List.sum_nil]
    apply List.sum_eq_zero
    intro y hy
    rcases List.mem_map.mp hy with ⟨d', _, rfl⟩
    rfl
  | cons e log ih =>
    have hcov' : ∀ e' ∈ log, e'.date ∈ ds :=
      fun e' he' => hcov e' (List.mem_cons_of_mem e he')
    have heq : (ds.map (sumPointsOn (e :: log))).sum =
        (ds.map (fun d => if e.date = d then e.points else 0)).sum +
          (ds.map (sumPointsOn log)).sum := by
      have hfun : sumPointsOn (e :: log) =
          fun d => (if e.date = d then e.points else 0) + sumPointsOn log d :=
        funext (sumPointsOn_cons e log)
      rw [hfun, sum_map_add]
    rw [heq, sum_ite_eq_of_mem e.date e.points hnd (hcov e (List.mem_cons_self e log)),
      ih hcov']
    simp

/-! ## Concrete sample data used by the witnesses -/

/-- A small typed log: two entries on 2024-01-05 (5 and 10 points) and one on
2024-01-03 (7 points). -/
def sampleLog : List LoadedEntry :=
  [{ no := some 1, date := ⟨2024, 1, 5⟩, activity := "Reading", points := 5, approval := "Good" },
   { no := some 2, date := ⟨2024, 1, 3⟩, activity := "Chores", points := 7, approval := "Average" },
   { no := some 3, date := ⟨2024, 1, 5⟩, activity := "Exercise", points := 10, approval := "Good" }]

/-- Raw log rows whose id column holds `"3"`, `"abc"`, `"7"`. -/
def sampleRows : List RawRow :=
  [{ no := "3", date := "2024-01-01", activity := "Run", point := "3", approval := "Good" },
   { no := "abc", date := "2024-01-02", activity := "Read", point := "5", approval := "Good" },
   { no := "7", date := "2024-01-03", activity := "Swim", point := "2", approval := "Average" }]

/-- A spreadsheet whose log holds a single row with id `"5"`. -/
def sampleSheet : Sheet :=
  { listActivity := [("Reading", 5)]
    logActivity := [{ no := "5", date := "2024-01-01", activity := "Run", point := "3", approval := "Good" }]
    recapPoint := [] }

/-- A spreadsheet whose single log row has the malformed point value `"abc"`. -/
def sampleSheetMalformed : Sheet :=
  { listActivity := [("Reading", 5)]
    logActivity := [{ no := "1", date := "2024-01-01", activity := "Reading", point := "abc", approval := "Good" }]
    recapPoint := [] }

/-- A spreadsheet holding one good row and one row whose date cannot be
parsed, with a non-empty stored recap grid. -/
def sampleSheetBadDate : Sheet :=
  { listActivity := [("Reading", 5)]
    logActivity :=
      [{ no := "1", date := "2024-01-01", activity := "Reading", point := "5", approval := "Good" },
       { no := "2", date := "notadate", activity := "Reading", point := "5", approval := "Good" }]
    recapPoint := [["No", "Date", "Rekap Point"], ["1", "2024-01-01", "5"]] }

/-! ## Claims -/

/-- Claim C1: for every non-empty log, `update_recap` produces exactly one
recap row per distinct date of the log (membership iff some entry has that
date, no duplicate dates), each row's total equals the sum of the points of
the entries with that date, the rows are in strictly ascending date order,
and the `No` column is `1..N` in that order. -/
theorem update_recap_one_row_per_date (log : List LoadedEntry) (_hne : log ≠ []) :
    ((update_recap_rows log).map RecapRow.date).Nodup ∧
    (∀ d : CalDate, d ∈ (update_recap_rows log).map RecapRow.date ↔ ∃ e ∈ log, e.date = d) ∧
    ((update_recap_rows log).map RecapRow.date).Pairwise dateLt ∧
    (∀ r ∈ update_recap_rows log, r.rekapPoint = sumPointsOn log r.date) ∧
    (update_recap_rows log).map RecapRow.no = List.range' 1 (update_recap_rows log).length := by
  have hdate : (update_recap_rows log).map RecapRow.date = recapDates log := by
    unfold update_recap_rows
    rw [numberRowsFrom_map_date, List.map_map]
    have hcomp : (Prod.fst ∘ fun d => (d, sumPointsOn log d)) = id := rfl
    rw [hcomp, List.map_id]
  refine ⟨?_, ?_, ?_, ?_, ?_⟩
  · rw [hdate]; exact recapDates_nodup log
  · intro d; rw [hdate]; exact mem_recapDates
  · rw [hdate]; exact recapDates_sorted_strict log
  · intro r hr
    unfold update_recap_rows at hr
    have hmem := mem_numberRowsFrom hr
    rcases List.mem_map.mp hmem with ⟨d, _, heq⟩
    have h1 : d = r.date := congrArg Prod.fst heq
    have h2 : sumPointsOn log d = r.rekapPoint := congrArg Prod.snd heq
    rw [← h2, h1]
  · unfold update_recap_rows
    rw [numberRowsFrom_map_no, numberRowsFrom_length, List.length_map]

/-- Witness for C1 on `sampleLog`; the last conjunct is the spec scenario:
the two 2024-01-05 entries with points 5 and 10 merge into a single row with
total 15. -/
theorem update_recap_one_row_per_date_witness :
    sampleLog ≠ [] ∧
    (((update_recap_rows sampleLog).map RecapRow.date).Nodup ∧
      (∀ d : CalDate, d ∈ (update_recap_rows sampleLog).map RecapRow.date ↔
        ∃ e ∈ sampleLog, e.date = d) ∧
      ((update_recap_rows sampleLog).map RecapRow.date).Pairwise dateLt ∧
      (∀ r ∈ update_recap_rows sampleLog, r.rekapPoint = sumPointsOn sampleLog r.date) ∧
      (update_recap_rows sampleLog).map RecapRow.no =
        List.range' 1 (update_recap_rows sampleLog).length) ∧
    update_recap_rows sampleLog = [⟨1, ⟨2024, 1, 3⟩, 7⟩, ⟨2, ⟨2024, 1, 5⟩, 15⟩] :=
  ⟨by decide, update_recap_one_row_per_date sampleLog (by decide), by decide⟩

/-- Claim C2: for every non-empty log the grand total over the recap rows
equals the sum of the points over the raw log. -/
theorem update_recap_sum_preserved (log : List LoadedEntry) (_hne : log ≠ []) :
    ((update_recap_rows log).map RecapRow.rekapPoint).sum =
      (log.map LoadedEntry.points).sum := by
  unfold update_recap_rows
  rw [numberRowsFrom_map_rekap, List.map_map]
  have hcomp : (Prod.snd ∘ fun d => (d, sumPointsOn log d)) = sumPointsOn log := rfl
  rw [hcomp]
  exact sum_over_dates log (recapDates log) (recapDates_nodup log)
    (fun e he => mem_recapDates.mpr ⟨e, he, rfl⟩)

/-- Witness for C2 on `sampleLog` (both grand totals are 22). -/
theorem update_recap_sum_preserved_witness :
    sampleLog ≠ [] ∧
    ((update_recap_rows sampleLog).map RecapRow.rekapPoint).sum =
      (sampleLog.map LoadedEntry.points).sum :=
  ⟨by decide, update_recap_sum_preserved sampleLog (by decide)⟩

/-- Claim C3: called with an empty log dataframe, `update_recap` issues no
write at all against the `RecapPoint` worksheet, leaving the stored recap
table exactly as it was. -/
theorem update_recap_empty_log_no_writes :
    update_recap_writes [] = [] ∧ ∀ s : Sheet, update_recap s [] = s := by
  constructor
  · rfl
  · intro s
    rfl

/-- Claim C4: `add_log_entry` assigns id 1 when the stored id column holds no
parseable value, and otherwise an attained maximum plus one, strictly greater
than every parseable id (malformed values are simply absent from `logIds`). -/
theorem add_log_entry_fresh_id (rows : List RawRow) :
    (logIds rows = [] → new_log_id rows = 1) ∧
    (logIds rows ≠ [] →
      (∃ m ∈ logIds rows, new_log_id rows = m + 1) ∧
      ∀ v ∈ logIds rows, v < new_log_id rows) := by
  refine ⟨?_, ?_⟩
  · intro h
    unfold new_log_id
    rw [if_pos h]
  · intro h
    exact ⟨new_log_id_attained rows h, new_log_id_gt rows⟩

/-- Witness for C4 on `sampleRows` (ids 3, "abc", 7: the fresh id is 8). -/
theorem add_log_entry_fresh_id_witness :
    logIds sampleRows ≠ [] ∧
    ((∃ m ∈ logIds sampleRows, new_log_id sampleRows = m + 1) ∧
      ∀ v ∈ logIds sampleRows, v < new_log_id sampleRows) ∧
    new_log_id sampleRows = 8 :=
  ⟨by decide, (add_log_entry_fresh_id sampleRows).2 (by decide), by decide⟩

/-- Counterexample to C5 as stated: on a sheet whose only stored id is 5 the
assigned id is 6, but `add_log_entry` returns Python `True` (numeric value
1), not the assigned id. -/
theorem add_log_entry_returns_flag_counterexample :
    new_log_id sampleSheet.logActivity = 6 ∧
    (add_log_entry sampleSheet ⟨2024, 1, 2⟩ "Reading" 5 "Good").2 = true ∧
    pyBoolAsInt (add_log_entry sampleSheet ⟨2024, 1, 2⟩ "Reading" 5 "Good").2 ≠
      new_log_id sampleSheet.logActivity := by
  decide

/-- Claim C5 as amended: `add_log_entry` always returns the constant `True`
(a success flag); the id it assigned is written into the appended row but is
not returned to the caller. -/
theorem add_log_entry_returns_true (s : Sheet) (d : CalDate) (act : String)
    (p : Int) (ap : String) :
    (add_log_entry s d act p ap).2 = true ∧
    (add_log_entry s d act p ap).1.logActivity =
      s.logActivity ++
        [{ no := natStr (new_log_id s.logActivity), date := isoString d,
           activity := act, point := intStr p, approval := ap }] :=
  ⟨rfl, rfl⟩

/-- Claim C6: an entry appended by `add_log_entry` and reloaded by
`load_data` (when the reload is error-free) comes back as the last log entry
with identical activity, points and approval, and a date equal as a calendar
date to the one submitted. -/
theorem append_then_load_round_trip (s : Sheet) (d : CalDate) (act : String)
    (p : Int) (ap : String)
    (hy1 : 1 ≤ d.year) (hy2 : d.year ≤ 9999)
    (hm1 : 1 ≤ d.month) (hm2 : d.month ≤ 12)
    (hd1 : 1 ≤ d.day) (hd2 : d.day ≤ 31)
    (hok : (load_data (add_log_entry s d act p ap).1).errored = false) :
    ∃ e : LoadedEntry,
      (load_data (add_log_entry s d act p ap).1).log.getLast? = some e ∧
      e.date = d ∧ e.activity = act ∧ e.points = p ∧ e.approval = ap := by
  have hparse : parseIsoDate (isoString d) = some d :=
    parseIsoDate_isoString d hy1 hy2 hm1 hm2 hd1 hd2
  set newRow : RawRow :=
    { no := natStr (new_log_id s.logActivity), date := isoString d,
      activity := act, point := intStr p, approval := ap } with hnew
  have hlog : (add_log_entry s d act p ap).1.logActivity = s.logActivity ++ [newRow] := rfl
  have hone : coerceLog [newRow] = some [coerceRow newRow d] := by
    show (match parseIsoDate newRow.date, coerceLog ([] : List RawRow) with
      | some d, some es => some (coerceRow newRow d :: es)
      | _, _ => none) = some [coerceRow newRow d]
    have : newRow.date = isoString d := rfl
    rw [this, hparse]
    rfl
  have happ := coerceLog_append s.logActivity [newRow]
  cases hc : coerceLog s.logActivity with
  | none =>
    exfalso
    have hall : coerceLog ((add_log_entry s d act p ap).1.logActivity) = none := by
      rw [hlog, happ, hc]
      rfl
    simp [load_data, hall] at hok
  | some a =>
    have hall : coerceLog ((add_log_entry s d act p ap).1.logActivity) =
        some (a ++ [coerceRow newRow d]) := by
      rw [hlog, happ, hc, hone]
      rfl
    refine ⟨coerceRow newRow d, ?_, rfl, rfl, ?_, rfl⟩
    · simp only [load_data, hall]
      exact List.getLast?_concat a
    · show (pyToNumeric newRow.point).getD 0 = p
      have : newRow.point = intStr p := rfl
      rw [this, pyToNumeric_intStr]
      rfl

/-- Witness for C6: append `(2024-01-02, Exercise, 10, Good)` to
`sampleSheet` and reload. -/
theorem append_then_load_round_trip_witness :
    (load_data (add_log_entry sampleSheet ⟨2024, 1, 2⟩ "Exercise" 10 "Good").1).errored = false ∧
    ∃ e : LoadedEntry,
      (load_data (add_log_entry sampleSheet ⟨2024, 1, 2⟩ "Exercise" 10 "Good").1).log.getLast? = some e ∧
      e.date = ⟨2024, 1, 2⟩ ∧ e.activity = "Exercise" ∧ e.points = 10 ∧ e.approval = "Good" :=
  ⟨by decide,
    append_then_load_round_trip sampleSheet ⟨2024, 1, 2⟩ "Exercise" 10 "Good"
      (by decide) (by decide) (by decide) (by decide) (by decide) (by decide) (by decide)⟩

/-- Claim C7: a loaded row whose `Point` cell is malformed (unparseable, e.g.
`"abc"`) yields an entry with points 0 at the same position, provided the
load as a whole succeeds. -/
theorem load_data_malformed_point_zero (s : Sheet) (i : Nat) (r : RawRow)
    (hr : s.logActivity.get? i = some r)
    (hmal : pyToNumeric r.point = none)
    (hok : (load_data s).errored = false) :
    ∃ e : LoadedEntry, (load_data s).log.get? i = some e ∧ e.points = 0 := by
  cases hc : coerceLog s.logActivity with
  | none =>
    exfalso
    simp [load_data, hc] at hok
  | some es =>
    obtain ⟨d, _, hei⟩ := coerceLog_get hc i r hr
    refine ⟨coerceRow r d, ?_, ?_⟩
    · simp only [load_data, hc]
      exact hei
    · show (pyToNumeric r.point).getD 0 = 0
      rw [hmal]
      rfl

/-- Witness for C7 on `sampleSheetMalformed` (point cell `"abc"` loads as 0). -/
theorem load_data_malformed_point_zero_witness :
    sampleSheetMalformed.logActivity.get? 0 =
      some { no := "1", date := "2024-01-01", activity := "Reading", point := "abc", approval := "Good" } ∧
    pyToNumeric "abc" = none ∧
    (load_data sampleSheetMalformed).errored = false ∧
    ∃ e : LoadedEntry, (load_data sampleSheetMalformed).log.get? 0 = some e ∧ e.points = 0 :=
  ⟨by decide, by decide, by decide,
    load_data_malformed_point_zero sampleSheetMalformed 0
      ({ no := "1", date := "2024-01-01", activity := "Reading", point := "abc", approval := "Good" } : RawRow)
      (by decide) (by decide) (by decide)⟩

/-- Claim C8: if any log row's date fails to parse, the whole load fails:
`load_data` surfaces the error and returns an empty catalog and an empty log
instead of crashing or recovering row by row. -/
theorem load_data_bad_date_fails_whole_load (s : Sheet) (r : RawRow)
    (hr : r ∈ s.logActivity) (hbad : parseIsoDate r.date = none) :
    load_data s = { errored := true, catalog := [], log := [] } := by
  have hc := coerceLog_none_of_bad hr hbad
  simp [load_data, hc]

/-- Witness for C8 on `sampleSheetBadDate` (second row's date is
`"notadate"`; even the first, well-formed row is dropped). -/
theorem load_data_bad_date_fails_whole_load_witness :
    ({ no := "2", date := "notadate", activity := "Reading", point := "5", approval := "Good" } : RawRow) ∈
      sampleSheetBadDate.logActivity ∧
    parseIsoDate "notadate" = none ∧
    load_data sampleSheetBadDate = { errored := true, catalog := [], log := [] } :=
  ⟨by decide, by decide,
    load_data_bad_date_fails_whole_load sampleSheetBadDate
      ({ no := "2", date := "notadate", activity := "Reading", point := "5", approval := "Good" } : RawRow)
      (by decide) (by decide)⟩

/-- Claim C9: the Submit-Log handler's locally synthesized entry always
carries the fixed placeholder id 999, whatever id `add_log_entry` actually
assigned; a second submission before any reload again appends a row with the
same placeholder id 999. -/
theorem submit_log_placeholder_id_999 (s : Sheet) (df_log : List LoadedEntry)
    (d1 d2 : CalDate) (a1 a2 : String) (p1 p2 : Int) (ap1 ap2 : String) :
    (submit_log s df_log d1 a1 p1 ap1).2 =
      df_log ++ [{ no := some 999, date := d1, activity := a1, points := p1, approval := ap1 }] ∧
    (submit_log (submit_log s df_log d1 a1 p1 ap1).1
        (submit_log s df_log d1 a1 p1 ap1).2 d2 a2 p2 ap2).2 =
      df_log ++
        [{ no := some 999, date := d1, activity := a1, points := p1, approval := ap1 },
         { no := some 999, date := d2, activity := a2, points := p2, approval := ap2 }] := by
  constructor
  · rfl
  · simp [submit_log]

/-- Claim C10: an id cell contributes to the max-id computation only when it
is a non-empty all-digit string; `"-3"`, `"+7"`, `" 5"` and `"5.0"` are all
excluded, and a log whose only id is `"-3"` gets the fresh id 1. -/
theorem add_log_entry_ids_digit_only :
    (∀ rows : List RawRow, ∀ n ∈ logIds rows,
      ∃ r ∈ rows, r.no.data ≠ [] ∧ (∀ c ∈ r.no.data, c.isDigit = true) ∧
        parseNatChars r.no.data = some n) ∧
    pyIsdigit "-3" = false ∧ pyIsdigit "+7" = false ∧
    pyIsdigit " 5" = false ∧ pyIsdigit "5.0" = false ∧
    new_log_id
      [{ no := "-3", date := "2024-01-01", activity := "Run", point := "3", approval := "Good" }] = 1 := by
  refine ⟨?_, by decide, by decide, by decide, by decide, by decide⟩
  intro rows n hn
  unfold logIds at hn
  rcases List.mem_filterMap.mp hn with ⟨sv, hsv, hparse⟩
  rcases List.mem_filter.mp hsv with ⟨hmem, hdig⟩
  rcases List.mem_map.mp hmem with ⟨r, hr, rfl⟩
  refine ⟨r, hr, ?_, ?_, hparse⟩
  · intro hnil
    unfold pyIsdigit at hdig
    rw [hnil] at hdig
    simp at hdig
  · unfold pyIsdigit at hdig
    rw [Bool.and_eq_true, List.all_eq_true] at hdig
    exact hdig.2

end PointApp
